import Mathlib

/-!
Shallow embedding of `src/homework_01/report_preparing.py`, the log-report
pipeline of this repository, together with proofs of the specification
claims about it.

Modelling conventions:
* Python `float` request durations are modelled as exact rationals (`ℚ`).
* Python strings are Lean `String`s; the string primitives the source uses
  (`<` comparison, `split`, slicing) are modelled as structural functions on
  the underlying character list (`String.data`), matching Python's
  code-point-wise semantics.
* The compiled regular expressions (`LOG_FILE_NAME_PATTERN`,
  `LOG_ROW_PATTERN`) are abstracted as parameters: a filename predicate
  `String → Bool` for `re.match(log_name_pattern, _)`, and a row matcher
  `String → Option LogRow` for `row_pattern_cmp.match(_)`, where `none`
  models the `False` sentinel yielded for a non-matching line.  Of the named
  groups only `request_path` and `request_time` are consumed downstream, so
  `LogRow` carries just these; `request_time` is carried as the result of
  Python `float()` applied to the captured text (`none` models a
  non-numeric capture, on which `float()` raises `ValueError`).
* The MD5 fingerprint `_calculate_hash` is abstracted as a digest-valued
  function (only equality of digests is ever used by the source).
* Exceptions are modelled with `Except`; a caught-and-logged exception that
  ends a generator (`_read_log_file`) is modelled as the sequence simply
  ending, exactly as the `except ... return` does.
-/

deriving instance DecidableEq for Except

namespace HW01

/-! ## Character-list models of the Python string primitives -/

/-- Python string `<` (and flipped `>`): lexicographic by code point. -/
def lexLt : List Char → List Char → Bool
  | [], [] => false
  | [], _ :: _ => true
  | _ :: _, [] => false
  | a :: as, b :: bs => if a < b then true else if b < a then false else lexLt as bs

/-- Python `str.split(sep)` for a one-character separator. -/
def splitOnChar (sep : Char) : List Char → List (List Char)
  | [] => [[]]
  | c :: rest =>
    if c = sep then [] :: splitOnChar sep rest
    else
      match splitOnChar sep rest with
      | [] => [[c]]
      | g :: gs => (c :: g) :: gs

/-- Python `str.startswith`, used only to instantiate the abstract filename
pattern in concrete examples. -/
def hasPrefixChars : List Char → List Char → Bool
  | [], _ => true
  | _ :: _, [] => false
  | a :: as, b :: bs => a == b && hasPrefixChars as bs

/-! ## Dates: `datetime.strptime(_, "%Y%m%d").date()` -/

structure Date where
  year : ℕ
  month : ℕ
  day : ℕ
  deriving Repr, DecidableEq

def isLeapYear (y : ℕ) : Bool :=
  (y % 4 == 0 && y % 100 != 0) || y % 400 == 0

def daysInMonth (y m : ℕ) : ℕ :=
  if m = 2 then (if isLeapYear y then 29 else 28)
  else if m = 4 ∨ m = 6 ∨ m = 9 ∨ m = 11 then 30
  else 31

def digitsVal (cs : List Char) : ℕ :=
  cs.foldl (fun a c => a * 10 + (c.toNat - 48)) 0

/-- Model of `datetime.datetime.strptime(s, "%Y%m%d").date()`: exactly four
year digits, two month digits, two day digits, validated as a proper
Gregorian calendar date (as `datetime.date` does); `none` models the raised
`ValueError`. -/
def parseDateYYYYMMDD (cs : List Char) : Option Date :=
  if cs.length = 8 ∧ cs.all Char.isDigit then
    let y := digitsVal (cs.take 4)
    let m := digitsVal ((cs.drop 4).take 2)
    let d := digitsVal (cs.drop 6)
    if 1 ≤ y ∧ y ≤ 9999 ∧ 1 ≤ m ∧ m ≤ 12 ∧ 1 ≤ d ∧ d ≤ daysInMonth y m then
      some ⟨y, m, d⟩
    else none
  else none

/-! ## LogSelector: `_get_latest_log_info` -/

/-- The `LogInfo` namedtuple. -/
structure LogInfo where
  filename : String
  full_path : String
  hash : String
  log_date : Date
  is_gzipped : Bool
  deriving Repr, DecidableEq

/-- One iteration of the selection loop (lines 69-73):
`found_file = filename if found_file is None or filename > found_file else found_file`,
run only when `re.match(log_name_pattern, filename)` is truthy. -/
def selStep (p : String → Bool) (found : Option String) (filename : String) : Option String :=
  if p filename then
    match found with
    | none => some filename
    | some f => if lexLt f.data filename.data then some filename else some f
  else found

/-- The whole selection loop over `os.listdir(log_location)`. -/
def findLatestName (files : List String) (p : String → Bool) : Option String :=
  files.foldl (selStep p) none

/-- Exceptions that can escape `_get_latest_log_info` (both propagate out of
the run uncaught, to the top-level handler of `__main__`). -/
inductive SelectErr
  | indexError
  | dateValueError
  deriving Repr, DecidableEq

/-- The date token of a filename: `found_file.split(".")[1][4:]`. -/
def dateToken (filename : String) : List Char :=
  ((splitOnChar '.' filename.data).getD 1 []).drop 4

/-- Model of `_get_latest_log_info`.  `dir_ok` is the conjunction
`os.path.exists(log_location) and os.path.isdir(log_location)`; `files` is
the `os.listdir` listing; `p` is the compiled name pattern; `hashOf`
abstracts `_calculate_hash` of the file stored under each name.
`os.path.join` is modelled with a `/` separator. -/
def getLatestLogInfo (log_location : String) (dir_ok : Bool) (files : List String)
    (p : String → Bool) (hashOf : String → String) : Except SelectErr (Option LogInfo) :=
  if !dir_ok then .ok none
  else
    match findLatestName files p with
    | none => .ok none
    | some found =>
      let parts := splitOnChar '.' found.data
      match parts[1]? with
      | none => .error .indexError
      | some part1 =>
        match parseDateYYYYMMDD (part1.drop 4) with
        | none => .error .dateValueError
        | some d =>
          .ok (some
            { filename := found
              full_path := log_location ++ "/" ++ found
              hash := hashOf found
              log_date := d
              is_gzipped := parts.getLastD [] == ['g', 'z'] })

/-! ## LogReader: `_read_log_file` -/

/-- The fields of one grammar-matching row that the aggregator consumes.
`request_time` holds the value of `float(row["request_time"])`; `none`
models a captured duration text that `float` cannot parse. -/
structure LogRow where
  request_path : String
  request_time : Option ℚ
  deriving Repr, DecidableEq

/-- One yielded element: `matches.groupdict()` (`some`) or `False` (`none`). -/
abbrev RowResult := Option LogRow

/-- The selected log file as the reader sees it.  `lines` are the decoded
text lines in order; `fail_at = some k` means a `UnicodeDecodeError` or
`OSError` occurs after `k` lines were yielded (the source catches it inside
the generator and executes `return`, i.e. the sequence just ends). -/
structure LogFile where
  lines : List String
  fail_at : Option ℕ
  deriving Repr, DecidableEq

/-- Model of `_read_log_file`: yields the per-line match results; on a
mid-file failure the sequence stops after the lines read so far, with no
further signal to the consumer. -/
def readLogFile (f : LogFile) (row_match : String → Option LogRow) : List RowResult :=
  (match f.fail_at with
   | none => f.lines
   | some k => f.lines.take k).map row_match

/-! ## Aggregator: `_parse_log_file` -/

/-- The per-endpoint running statistics dict created by `setdefault`. -/
structure EndpointStat where
  path : String
  time_sum : ℚ
  request_times : List ℚ
  count : ℕ
  time_max : ℚ
  deriving Repr, DecidableEq

/-- The default dict value passed to `stats_map.setdefault`. -/
def newStat (p : String) : EndpointStat :=
  { path := p, time_sum := 0, request_times := [], count := 0, time_max := 0 }

/-- Lines 167-171: the in-place update of one endpoint's running stats. -/
def updateStat (s : EndpointStat) (t : ℚ) : EndpointStat :=
  { s with
      time_sum := s.time_sum + t
      request_times := s.request_times ++ [t]
      time_max := if s.time_max < t then t else s.time_max
      count := s.count + 1 }

/-- `stats_map.setdefault(path, …)` followed by the update: the Python dict
is modelled as an association list in insertion order. -/
def insertRow : List (String × EndpointStat) → String → ℚ → List (String × EndpointStat)
  | [], p, t => [(p, updateStat (newStat p) t)]
  | (k, s) :: rest, p, t =>
    if k = p then (k, updateStat s t) :: rest else (k, s) :: insertRow rest p t

/-- The mutable state of the parsing loop: the counters of the
`ParsingResult` under construction plus the local `stats_map`. -/
structure ParseState where
  row_process_error_cnt : ℕ := 0
  req_total_count : ℕ := 0
  req_total_time : ℚ := 0
  stats_map : List (String × EndpointStat) := []
  deriving Repr, DecidableEq

/-- The exception that can escape `_parse_log_file`: the `ValueError` raised
by `float(row["request_time"])` on a non-numeric capture.  It is caught
nowhere below `__main__`, so it aborts the run. -/
inductive ParseErr
  | floatValueError
  deriving Repr, DecidableEq

/-- The `for row in log` loop of `_parse_log_file` (lines 142-171). -/
def parseLogFileLoop : ParseState → List RowResult → Except ParseErr ParseState
  | st, [] => .ok st
  | st, none :: rest =>
    parseLogFileLoop
      { st with
          req_total_count := st.req_total_count + 1
          row_process_error_cnt := st.row_process_error_cnt + 1 } rest
  | st, some row :: rest =>
    match row.request_time with
    | none => .error .floatValueError
    | some t =>
      parseLogFileLoop
        { st with
            req_total_count := st.req_total_count + 1
            req_total_time := st.req_total_time + t
            stats_map := insertRow st.stats_map row.request_path t } rest

/-- The `ParsingResult` dataclass. -/
structure ParsingResult where
  row_process_error_cnt : ℕ := 0
  req_total_count : ℕ := 0
  req_total_time : ℚ := 0
  stats : List EndpointStat := []
  deriving Repr, DecidableEq

/-- The `error_percent` property: `row_process_error_cnt / req_total_count * 100`. -/
def ParsingResult.error_percent (r : ParsingResult) : ℚ :=
  (r.row_process_error_cnt : ℚ) / (r.req_total_count : ℚ) * 100

/-- The `has_data_to_render` property (the list is never `None` here). -/
def ParsingResult.has_data_to_render (r : ParsingResult) : Bool :=
  !r.stats.isEmpty

/-- Ordering used by `sorted(stats_map.values(), key=lambda x: x["time_max"],
reverse=True)`: `a` may stay before `b` iff `b`'s key does not exceed `a`'s. -/
def statGe (a b : EndpointStat) : Prop := b.time_max ≤ a.time_max

instance : DecidableRel statGe := fun _ _ => inferInstanceAs (Decidable (_ ≤ _))

instance : IsTotal EndpointStat statGe :=
  ⟨fun a b => le_total b.time_max a.time_max⟩

instance : IsTrans EndpointStat statGe :=
  ⟨fun _ _ _ hab hbc => le_trans hbc hab⟩

/-- Python's `sorted` is a stable sort; with `reverse=True` it keeps, among
equal keys, the original order.  A stable insertion sort with `statGe` has
exactly this behaviour. -/
def sortStats (l : List EndpointStat) : List EndpointStat :=
  l.insertionSort statGe

/-- Model of `_parse_log_file` (lines 129-182): run the loop, then sort the
collected per-endpoint dicts by `time_max` descending (skipped when the map
is empty, leaving the dataclass default `[]`). -/
def parseLogFile (rows : List RowResult) : Except ParseErr ParsingResult :=
  (parseLogFileLoop {} rows).map fun st =>
    { row_process_error_cnt := st.row_process_error_cnt
      req_total_count := st.req_total_count
      req_total_time := st.req_total_time
      stats := if st.stats_map.isEmpty then [] else sortStats (st.stats_map.map Prod.snd) }

/-! ## ReportBuilder: `_prepare_report_data` -/

/-- Model of `statistics.median`: sort ascending; odd length takes the
middle element, even length averages the two middle elements. -/
def median (l : List ℚ) : ℚ :=
  let s := l.insertionSort (· ≤ ·)
  let n := s.length
  if n % 2 = 1 then s.getD (n / 2) 0
  else (s.getD (n / 2 - 1) 0 + s.getD (n / 2) 0) / 2

/-- Round-half-to-even on rationals, the rule of Python's `round`. -/
def roundHalfEven (q : ℚ) : ℤ :=
  let f := ⌊q⌋
  let r := q - f
  if r < 1 / 2 then f
  else if 1 / 2 < r then f + 1
  else if f % 2 = 0 then f else f + 1

/-- Python `round(x, 5)`. -/
def round5 (q : ℚ) : ℚ :=
  (roundHalfEven (q * 100000) : ℚ) / 100000

/-- One rendered report row (the dict literal of lines 205-214). -/
structure ReportRow where
  url : String
  count : ℕ
  count_perc : ℚ
  time_sum : ℚ
  time_max : ℚ
  time_perc : ℚ
  time_avg : ℚ
  time_med : ℚ
  deriving Repr, DecidableEq

/-- The dict built for one retained endpoint (lines 205-214). -/
def mkReportRow (parsed_log : ParsingResult) (row : EndpointStat) : ReportRow :=
  { url := row.path
    count := row.count
    count_perc := round5 ((row.count : ℚ) / (parsed_log.req_total_count : ℚ) * 100)
    time_sum := round5 row.time_sum
    time_max := row.time_max
    time_perc := round5 (row.time_sum / parsed_log.req_total_time * 100)
    time_avg := round5 (row.time_sum / (row.count : ℚ))
    time_med := median row.request_times }

/-- The guard of lines 197-199, with Python's short-circuit evaluation:
`req_total_count > 0 and (0 < parse_error_threshold_percent <= error_percent)`. -/
def thresholdBreached (parsed_log : ParsingResult) (threshold : ℤ) : Bool :=
  decide (0 < parsed_log.req_total_count) &&
    (decide (0 < threshold) && decide ((threshold : ℚ) ≤ parsed_log.error_percent))

/-- The `ValueError` of lines 200-202 ("Too many errors (more than …%)").
The message carries only the threshold. -/
inductive ReportErr
  | tooManyErrors (threshold : ℤ)
  deriving Repr, DecidableEq

/-- Model of `_prepare_report_data`.  `report_size` is the `REPORT_SIZE`
configuration value (a positive integer per the configuration surface), so
`parsed_log.stats[:report_size]` is `List.take`. -/
def prepareReportData (parsed_log : ParsingResult) (report_size : ℕ)
    (parse_error_threshold_percent : ℤ) : Except ReportErr (List ReportRow) :=
  if thresholdBreached parsed_log parse_error_threshold_percent then
    .error (.tooManyErrors parse_error_threshold_percent)
  else
    .ok ((parsed_log.stats.take report_size).map (mkReportRow parsed_log))

/-! ## ProcessedMarker gate and orchestrator:
`prepare_report_based_on_latest_log_file` -/

/-- The guard of line 291, with Python truthiness:
`last_parsed_file_hash and last_parsed_file_hash == log_file_info.hash`
(an absent marker file reads as `None`; an empty string is falsy). -/
def alreadyParsedCheck (last_parsed_hash : Option String) (info : LogInfo) : Bool :=
  match last_parsed_hash with
  | none => false
  | some h => !(h == "") && (h == info.hash)

/-- The run-level hard failures that propagate out of the orchestrator. -/
inductive RunFailure
  | floatValueError
  | thresholdExceeded (threshold : ℤ)
  deriving Repr, DecidableEq

/-- Observable outcome of one run: whether the log file was parsed at all,
the report rows written (if any), the fingerprint written to `last.parsed`
(if any), and the propagated failure (if any). -/
structure RunResult where
  parse_attempted : Bool
  report : Option (List ReportRow)
  marker_saved : Option String
  failure : Option RunFailure
  deriving Repr, DecidableEq

/-- Model of `prepare_report_based_on_latest_log_file` (lines 267-322),
taking the selector result, the marker file content, the selected file's
readable content and the compiled row pattern as inputs.  The second
`has_data_to_render` check of line 313 re-tests the same unchanged value,
so it never fires and is omitted. -/
def prepareReportBasedOnLatestLogFile (log_file_info : Option LogInfo)
    (last_parsed_hash : Option String) (file : LogFile)
    (row_match : String → Option LogRow) (report_size : ℕ)
    (parse_error_threshold_percent : ℤ) : RunResult :=
  match log_file_info with
  | none => { parse_attempted := false, report := none, marker_saved := none, failure := none }
  | some info =>
    if alreadyParsedCheck last_parsed_hash info then
      { parse_attempted := false, report := none, marker_saved := none, failure := none }
    else
      match parseLogFile (readLogFile file row_match) with
      | .error _ =>
        { parse_attempted := true, report := none, marker_saved := none
          failure := some .floatValueError }
      | .ok parsed_log =>
        if parsed_log.has_data_to_render then
          match prepareReportData parsed_log report_size parse_error_threshold_percent with
          | .error (.tooManyErrors t) =>
            { parse_attempted := true, report := none, marker_saved := none
              failure := some (.thresholdExceeded t) }
          | .ok rows =>
            { parse_attempted := true, report := some rows
              marker_saved := some info.hash, failure := none }
        else
          { parse_attempted := true, report := none, marker_saved := none, failure := none }

/-- Successfully parsed rows of a row sequence. -/
def successRows (rows : List RowResult) : List LogRow :=
  rows.filterMap id

/-- Number of distinct endpoints (request paths) among the successfully
parsed rows of a sequence. -/
def distinctPathCount (rows : List RowResult) : ℕ :=
  ((successRows rows).map LogRow.request_path).toFinset.card

/-- A sample selector result used to exercise the orchestrator on concrete
inputs. -/
def sampleInfo : LogInfo :=
  { filename := "x.log-20240101"
    full_path := "log/x.log-20240101"
    hash := "0123abcd"
    log_date := ⟨2024, 1, 1⟩
    is_gzipped := false }

/-! ## Claim C1: the threshold-breach condition -/

/-- C1: for every aggregation result, report size and threshold value, the
report builder raises the threshold error if and only if the total request
count is positive, the threshold is strictly positive, and the error rate
percent is at least the threshold; a zero or negative threshold never
raises. -/
theorem claim_c1 (parsed_log : ParsingResult) (report_size : ℕ) (threshold : ℤ) :
    prepareReportData parsed_log report_size threshold = .error (.tooManyErrors threshold) ↔
      0 < parsed_log.req_total_count ∧ 0 < threshold ∧
        parsed_log.error_percent ≥ (threshold : ℚ) := by
  have hb : thresholdBreached parsed_log threshold = true ↔
      0 < parsed_log.req_total_count ∧ 0 < threshold ∧
        parsed_log.error_percent ≥ (threshold : ℚ) := by
    simp [thresholdBreached, ge_iff_le, and_assoc]
  constructor
  · intro hEq
    by_cases h : thresholdBreached parsed_log threshold
    · exact hb.mp h
    · rw [prepareReportData, if_neg (by simp [h])] at hEq
      exact absurd hEq (by simp)
  · intro hc
    rw [prepareReportData, if_pos (hb.mpr hc)]

/-! ## Claim C9: non-numeric duration on a matching line aborts the run -/

/-- If some grammar-matching row of the sequence carries a duration that
`float` cannot parse, the parsing loop raises no matter where that row sits
or what state has accumulated. -/
theorem parseLogFileLoop_error (rows : List RowResult) :
    ∀ st : ParseState, (∃ lr : LogRow, some lr ∈ rows ∧ lr.request_time = none) →
      parseLogFileLoop st rows = .error .floatValueError := by
  induction rows with
  | nil =>
    intro st h
    obtain ⟨lr, hmem, _⟩ := h
    simp at hmem
  | cons r rest ih =>
    intro st h
    obtain ⟨lr, hmem, hnone⟩ := h
    rcases List.mem_cons.mp hmem with heq | htail
    · rw [← heq]
      simp [parseLogFileLoop, hnone]
    · cases r with
      | none => simpa [parseLogFileLoop] using ih _ ⟨lr, htail, hnone⟩
      | some row =>
        cases hrt : row.request_time with
        | none => simp [parseLogFileLoop, hrt]
        | some t => simpa [parseLogFileLoop, hrt] using ih _ ⟨lr, htail, hnone⟩

/-- C9: a row that matches the line grammar but whose duration field is not
parseable as a float makes the whole aggregation fail as a hard error —
there is no per-row recovery path. -/
theorem claim_c9 (rows : List RowResult) (lr : LogRow)
    (hmem : some lr ∈ rows) (hbad : lr.request_time = none) :
    parseLogFile rows = .error .floatValueError := by
  unfold parseLogFile
  rw [parseLogFileLoop_error rows _ ⟨lr, hmem, hbad⟩]
  rfl

/-- Witness for C9: a one-row sequence whose matched line has a non-numeric
duration capture. -/
theorem claim_c9_witness :
    some ({ request_path := "/x", request_time := none } : LogRow) ∈
        ([some { request_path := "/x", request_time := none }] : List RowResult) ∧
      parseLogFile [some { request_path := "/x", request_time := none }] =
        .error .floatValueError :=
  ⟨by decide,
   claim_c9 [some { request_path := "/x", request_time := none }]
     { request_path := "/x", request_time := none } (by decide) rfl⟩

/-! ## Claim C8: an unchanged fingerprint skips the whole run -/

/-- C8: when the marker file holds exactly the selected file's fingerprint
(a real digest, hence non-empty), the run parses nothing and writes
nothing. -/
theorem claim_c8 (info : LogInfo) (file : LogFile) (row_match : String → Option LogRow)
    (report_size : ℕ) (threshold : ℤ) (hhash : info.hash ≠ "") :
    prepareReportBasedOnLatestLogFile (some info) (some info.hash) file row_match
        report_size threshold =
      { parse_attempted := false, report := none, marker_saved := none, failure := none } := by
  have hchk : alreadyParsedCheck (some info.hash) info = true := by
    simp [alreadyParsedCheck, hhash]
  simp [prepareReportBasedOnLatestLogFile, hchk]

/-- Witness for C8 at a concrete marker state. -/
theorem claim_c8_witness :
    sampleInfo.hash ≠ "" ∧
      prepareReportBasedOnLatestLogFile (some sampleInfo) (some sampleInfo.hash)
          ⟨["line"], none⟩ (fun _ => none) 10 (-1) =
        { parse_attempted := false, report := none, marker_saved := none, failure := none } :=
  ⟨by decide, claim_c8 sampleInfo ⟨["line"], none⟩ (fun _ => none) 10 (-1) (by decide)⟩

/-! ## Claim C2: zero stat rows end the run early, marker untouched -/

/-- Counterexample to C2 as stated: a run whose file is fully read (no
reader failure) and whose single line fails the grammar ends successfully
with no report, but the marker is NOT updated — `marker_saved` is `none`,
not the file's fingerprint. -/
theorem claim_c2_counterexample :
    prepareReportBasedOnLatestLogFile (some sampleInfo) none ⟨["unparseable"], none⟩
        (fun _ => none) 10 (-1) =
      { parse_attempted := true, report := none, marker_saved := none, failure := none } ∧
    (prepareReportBasedOnLatestLogFile (some sampleInfo) none ⟨["unparseable"], none⟩
        (fun _ => none) 10 (-1)).marker_saved ≠ some sampleInfo.hash := by
  exact ⟨by decide, by decide⟩

/-- C2 (amended): for every run in which the selected file is read without
the marker gate firing and aggregation produces zero distinct endpoint
stats, the run ends successfully with no report written and the marker file
is NOT updated (the source returns before the marker write). -/
theorem claim_c2 (info : LogInfo) (last_parsed_hash : Option String) (file : LogFile)
    (row_match : String → Option LogRow) (report_size : ℕ) (threshold : ℤ)
    (res : ParsingResult)
    (hskip : alreadyParsedCheck last_parsed_hash info = false)
    (hparse : parseLogFile (readLogFile file row_match) = .ok res)
    (hempty : res.stats = []) :
    prepareReportBasedOnLatestLogFile (some info) last_parsed_hash file row_match
        report_size threshold =
      { parse_attempted := true, report := none, marker_saved := none, failure := none } := by
  have hd : res.has_data_to_render = false := by
    simp [ParsingResult.has_data_to_render, hempty]
  simp [prepareReportBasedOnLatestLogFile, hskip, hparse, hd]

/-- Witness for the amended C2. -/
theorem claim_c2_witness :
    (alreadyParsedCheck none sampleInfo = false ∧
      parseLogFile (readLogFile ⟨["unparseable"], none⟩ (fun _ => none)) =
        .ok { row_process_error_cnt := 1, req_total_count := 1, req_total_time := 0, stats := [] }) ∧
    prepareReportBasedOnLatestLogFile (some sampleInfo) none ⟨["unparseable"], none⟩
        (fun _ => none) 5 10 =
      { parse_attempted := true, report := none, marker_saved := none, failure := none } :=
  ⟨⟨rfl, rfl⟩,
   claim_c2 sampleInfo none ⟨["unparseable"], none⟩ (fun _ => none) 5 10
     { row_process_error_cnt := 1, req_total_count := 1, req_total_time := 0, stats := [] }
     rfl rfl rfl⟩

/-! ## Claim C3: reader failure is silent truncation, not a signal -/

/-- The matcher used by the C3 counterexample. -/
def c3Match : String → Option LogRow := fun s =>
  if s = "good" then some { request_path := "/a", request_time := some 1 }
  else some { request_path := "/b", request_time := some 2 }

/-- Counterexample to C3 as stated: a file whose reading fails after one of
two lines produces exactly the same row sequence as a clean one-line file
(no distinguishable signal), and the run then reports the partial
aggregation as a normal success — it even updates the marker. -/
theorem claim_c3_counterexample :
    readLogFile ⟨["good", "lost"], some 1⟩ c3Match = readLogFile ⟨["good"], none⟩ c3Match ∧
    prepareReportBasedOnLatestLogFile (some sampleInfo) none ⟨["good", "lost"], some 1⟩
        c3Match 10 (-1) =
      { parse_attempted := true
        report := some [{ url := "/a", count := 1, count_perc := 100, time_sum := 1,
                          time_max := 1, time_perc := 100, time_avg := 1, time_med := 1 }]
        marker_saved := some sampleInfo.hash
        failure := none } := by
  constructor
  · rfl
  · norm_num [prepareReportBasedOnLatestLogFile, alreadyParsedCheck, readLogFile, c3Match,
      parseLogFile, parseLogFileLoop, insertRow, updateStat, newStat, sortStats,
      List.insertionSort, List.orderedInsert, ParsingResult.has_data_to_render,
      prepareReportData, thresholdBreached, ParsingResult.error_percent, mkReportRow,
      round5, roundHalfEven, median, Except.map]

/-- C3 (amended): on a decoding or I/O failure mid-file the produced row
sequence terminates early, but the consumer observes a normal end of
sequence — the output is identical to that of a clean file containing only
the lines read so far, and the whole run (including any partial
aggregation) proceeds exactly as it would on that truncated file. -/
theorem claim_c3 (lines : List String) (k : ℕ) (row_match : String → Option LogRow)
    (info : LogInfo) (last_parsed_hash : Option String) (report_size : ℕ) (threshold : ℤ)
    (hk : k ≤ lines.length) :
    readLogFile ⟨lines, some k⟩ row_match = (lines.take k).map row_match ∧
    (readLogFile ⟨lines, some k⟩ row_match).length = k ∧
    readLogFile ⟨lines, some k⟩ row_match = readLogFile ⟨lines.take k, none⟩ row_match ∧
    prepareReportBasedOnLatestLogFile (some info) last_parsed_hash ⟨lines, some k⟩
        row_match report_size threshold =
      prepareReportBasedOnLatestLogFile (some info) last_parsed_hash ⟨lines.take k, none⟩
        row_match report_size threshold := by
  refine ⟨rfl, ?_, rfl, rfl⟩
  simp [readLogFile, hk]

/-- Witness for the amended C3. -/
theorem claim_c3_witness :
    1 ≤ (["good", "lost"] : List String).length ∧
      readLogFile ⟨["good", "lost"], some 1⟩ c3Match =
        ((["good", "lost"] : List String).take 1).map c3Match :=
  ⟨by decide,
   (claim_c3 ["good", "lost"] 1 c3Match sampleInfo none 10 (-1) (by decide)).1⟩

/-! ## Claim C5: aggregation on the synthetic two-endpoint log -/

/-- The synthetic row sequence of the spec's aggregation test: three
requests to `/a` (0.1, 0.2, 0.3) and one to `/b` (0.4), zero parse
failures. -/
def c5Rows : List RowResult :=
  [some { request_path := "/a", request_time := some 0.1 },
   some { request_path := "/a", request_time := some 0.2 },
   some { request_path := "/a", request_time := some 0.3 },
   some { request_path := "/b", request_time := some 0.4 }]

/-- C5: aggregation of the synthetic sequence yields totalRequests = 4,
`/a` count 3 / timeSum 0.6 / timeMax 0.3 with durations [0.1, 0.2, 0.3]
(median 0.2), `/b` timeMax 0.4, and stats ordered [`/b`, `/a`] by timeMax
descending. -/
theorem claim_c5 :
    parseLogFile c5Rows =
      .ok { row_process_error_cnt := 0, req_total_count := 4, req_total_time := 1,
            stats := [{ path := "/b", time_sum := 0.4, request_times := [0.4],
                        count := 1, time_max := 0.4 },
                      { path := "/a", time_sum := 0.6, request_times := [0.1, 0.2, 0.3],
                        count := 3, time_max := 0.3 }] } ∧
    median [0.1, 0.2, 0.3] = 0.2 := by
  have hab : ("/a" : String) ≠ "/b" := by decide
  have hba : ("/b" : String) ≠ "/a" := by decide
  constructor
  · norm_num [c5Rows, parseLogFile, parseLogFileLoop, insertRow, updateStat, newStat,
      sortStats, List.insertionSort, List.orderedInsert, statGe, Except.map, hab, hba]
  · norm_num [median, List.insertionSort, List.orderedInsert]

/-! ## Claim C7: which report fields are rounded -/

/-- The duration used to separate rounded from unrounded fields: its exact
value is not representable with 5 decimal digits. -/
def c7Val : ℚ := 123456789 / 1000000000

/-- Counterexample to C7 as stated: in the produced report the `time_max`
field is passed through unrounded — the output value is not a 5-decimal
rounding of itself, so `timeMax` is not "rounded to 5 decimal digits". -/
theorem claim_c7_counterexample :
    (prepareReportBasedOnLatestLogFile (some sampleInfo) none ⟨["r"], none⟩
        (fun _ => some { request_path := "/a", request_time := some c7Val }) 10 (-1)).report =
      some [{ url := "/a", count := 1, count_perc := 100, time_sum := 12346 / 100000,
              time_max := c7Val, time_perc := 100, time_avg := 12346 / 100000,
              time_med := c7Val }] ∧
    round5 c7Val ≠ c7Val := by
  constructor
  · norm_num [prepareReportBasedOnLatestLogFile, alreadyParsedCheck, readLogFile,
      parseLogFile, parseLogFileLoop, insertRow, updateStat, newStat, sortStats,
      List.insertionSort, List.orderedInsert, ParsingResult.has_data_to_render,
      prepareReportData, thresholdBreached, ParsingResult.error_percent, mkReportRow,
      round5, roundHalfEven, median, c7Val, Except.map]
  · norm_num [round5, roundHalfEven, c7Val]

/-- C7 (amended): every retained report row rounds `count_perc`,
`time_sum`, `time_perc` and `time_avg` to 5 decimal digits with the single
round-half-to-even rule, while `time_max` and `time_med` are left at full
precision. -/
theorem claim_c7 (parsed_log : ParsingResult) (report_size : ℕ) (threshold : ℤ)
    (out : List ReportRow)
    (h : prepareReportData parsed_log report_size threshold = .ok out) :
    out = (parsed_log.stats.take report_size).map fun row =>
      { url := row.path
        count := row.count
        count_perc := round5 ((row.count : ℚ) / (parsed_log.req_total_count : ℚ) * 100)
        time_sum := round5 row.time_sum
        time_max := row.time_max
        time_perc := round5 (row.time_sum / parsed_log.req_total_time * 100)
        time_avg := round5 (row.time_sum / (row.count : ℚ))
        time_med := median row.request_times } := by
  rw [prepareReportData] at h
  by_cases hb : thresholdBreached parsed_log threshold
  · rw [if_pos hb] at h
    exact absurd h (by simp)
  · rw [if_neg hb] at h
    exact (Except.ok.inj h).symm

/-- Witness for the amended C7. -/
theorem claim_c7_witness :
    prepareReportData
        { row_process_error_cnt := 0, req_total_count := 0, req_total_time := 0, stats := [] }
        3 (-1) = .ok [] ∧
      ([] : List ReportRow) =
        ((({ row_process_error_cnt := 0, req_total_count := 0, req_total_time := 0,
             stats := [] } : ParsingResult).stats.take 3).map fun row =>
          { url := row.path
            count := row.count
            count_perc := round5 ((row.count : ℚ) / ((0 : ℕ) : ℚ) * 100)
            time_sum := round5 row.time_sum
            time_max := row.time_max
            time_perc := round5 (row.time_sum / (0 : ℚ) * 100)
            time_avg := round5 (row.time_sum / (row.count : ℚ))
            time_med := median row.request_times }) :=
  ⟨rfl,
   claim_c7 { row_process_error_cnt := 0, req_total_count := 0, req_total_time := 0,
              stats := [] } 3 (-1) [] rfl⟩

/-! ## Claim C10: structural invariants of the parsing result -/

/-- Inserting one observation raises the total endpoint count by one. -/
theorem insertRow_counts_sum (m : List (String × EndpointStat)) (p : String) (t : ℚ) :
    ((insertRow m p t).map fun kv => kv.2.count).sum =
      ((m.map fun kv => kv.2.count)).sum + 1 := by
  induction m with
  | nil => simp [insertRow, updateStat, newStat]
  | cons kv rest ih =>
    obtain ⟨k, s⟩ := kv
    by_cases h : k = p
    · simp [insertRow, h, updateStat]
      omega
    · simp [insertRow, h, ih]
      omega

/-- Inserting one observation preserves the per-stat bookkeeping: count is
the length of the retained duration list and time_sum its sum. -/
theorem insertRow_stat_inv (m : List (String × EndpointStat)) (p : String) (t : ℚ)
    (hm : ∀ kv ∈ m, kv.2.count = kv.2.request_times.length ∧
      kv.2.time_sum = kv.2.request_times.sum) :
    ∀ kv ∈ insertRow m p t, kv.2.count = kv.2.request_times.length ∧
      kv.2.time_sum = kv.2.request_times.sum := by
  induction m with
  | nil =>
    intro kv hkv
    simp [insertRow] at hkv
    subst hkv
    simp [updateStat, newStat]
  | cons kv0 rest ih =>
    obtain ⟨k, s⟩ := kv0
    intro kv hkv
    by_cases h : k = p
    · simp [insertRow, h] at hkv
      rcases hkv with hkv | hkv
      · subst hkv
        have hs := hm (k, s) (by simp)
        constructor
        · simp only [updateStat]
          simp
          exact hs.1
        · simp only [updateStat]
          simp
          exact hs.2
      · exact hm kv (List.mem_cons_of_mem _ hkv)
    · simp [insertRow, h] at hkv
      rcases hkv with hkv | hkv
      · subst hkv
        exact hm (k, s) (by simp)
      · exact ih (fun kv2 hkv2 => hm kv2 (List.mem_cons_of_mem _ hkv2)) kv hkv

/-- The loop preserves the counter identity and the per-stat bookkeeping. -/
theorem parseLogFileLoop_inv (rows : List RowResult) :
    ∀ st st1 : ParseState, parseLogFileLoop st rows = .ok st1 →
      (st.req_total_count = st.row_process_error_cnt +
          ((st.stats_map.map fun kv => kv.2.count)).sum →
        st1.req_total_count = st1.row_process_error_cnt +
          ((st1.stats_map.map fun kv => kv.2.count)).sum) ∧
      ((∀ kv ∈ st.stats_map, kv.2.count = kv.2.request_times.length ∧
          kv.2.time_sum = kv.2.request_times.sum) →
        ∀ kv ∈ st1.stats_map, kv.2.count = kv.2.request_times.length ∧
          kv.2.time_sum = kv.2.request_times.sum) := by
  induction rows with
  | nil =>
    intro st st1 h
    simp [parseLogFileLoop] at h
    subst h
    exact ⟨id, id⟩
  | cons r rest ih =>
    intro st st1 h
    cases r with
    | none =>
      simp only [parseLogFileLoop] at h
      obtain ⟨ih1, ih2⟩ := ih _ st1 h
      refine ⟨fun hbase => ih1 ?_, fun hstat => ih2 hstat⟩
      show st.req_total_count + 1 =
        st.row_process_error_cnt + 1 + ((st.stats_map.map fun kv => kv.2.count)).sum
      omega
    | some row =>
      cases hrt : row.request_time with
      | none => simp [parseLogFileLoop, hrt] at h
      | some t =>
        simp only [parseLogFileLoop, hrt] at h
        obtain ⟨ih1, ih2⟩ := ih _ st1 h
        refine ⟨fun hbase => ih1 ?_, fun hstat => ih2 (insertRow_stat_inv _ _ _ hstat)⟩
        show st.req_total_count + 1 = st.row_process_error_cnt +
          (((insertRow st.stats_map row.request_path t).map fun kv => kv.2.count)).sum
        rw [insertRow_counts_sum]
        omega

/-- The final `stats` list (empty map kept as `[]`, otherwise sorted) is a
permutation of the collected per-endpoint dicts. -/
theorem stats_if_perm (l : List (String × EndpointStat)) :
    (if l.isEmpty then ([] : List EndpointStat) else sortStats (l.map Prod.snd)).Perm
      (l.map Prod.snd) := by
  by_cases he : l.isEmpty
  · rw [if_pos he, List.isEmpty_iff.mp he]
    simp
  · rw [if_neg he]
    exact List.perm_insertionSort _ _

/-- C10: in every successfully produced ParsingResult, the total request
count equals the parse-error count plus the sum of per-endpoint counts, and
each endpoint's count and time_sum agree with its retained duration list. -/
theorem claim_c10 (rows : List RowResult) (res : ParsingResult)
    (h : parseLogFile rows = .ok res) :
    res.req_total_count = res.row_process_error_cnt +
        (res.stats.map EndpointStat.count).sum ∧
      ∀ s ∈ res.stats, s.count = s.request_times.length ∧
        s.time_sum = s.request_times.sum := by
  unfold parseLogFile at h
  cases hl : parseLogFileLoop {} rows with
  | error e => rw [hl] at h; exact absurd h (by simp [Except.map])
  | ok st =>
    rw [hl] at h
    simp only [Except.map] at h
    injection h with h
    obtain ⟨hcnt, hstat⟩ := parseLogFileLoop_inv rows {} st hl
    have h1 := hcnt (by simp)
    have h2 := hstat (by simp)
    subst h
    have hperm := stats_if_perm st.stats_map
    constructor
    · show st.req_total_count = st.row_process_error_cnt +
        (((if st.stats_map.isEmpty then ([] : List EndpointStat)
           else sortStats (st.stats_map.map Prod.snd))).map EndpointStat.count).sum
      rw [(hperm.map EndpointStat.count).sum_eq, List.map_map]
      simpa [Function.comp] using h1
    · intro s hs
      have hs2 : s ∈ st.stats_map.map Prod.snd := hperm.mem_iff.mp hs
      obtain ⟨kv, hkv, hkv2⟩ := List.mem_map.mp hs2
      have := h2 kv hkv
      rw [← hkv2]
      exact this

/-- Witness for C10: two grammar-failing rows. -/
theorem claim_c10_witness :
    parseLogFile [none, none] =
        .ok { row_process_error_cnt := 2, req_total_count := 2, req_total_time := 0,
              stats := [] } ∧
      (({ row_process_error_cnt := 2, req_total_count := 2, req_total_time := 0,
          stats := [] } : ParsingResult).req_total_count =
          ({ row_process_error_cnt := 2, req_total_count := 2, req_total_time := 0,
             stats := [] } : ParsingResult).row_process_error_cnt +
            ((({ row_process_error_cnt := 2, req_total_count := 2, req_total_time := 0,
                 stats := [] } : ParsingResult).stats.map EndpointStat.count)).sum ∧
        ∀ s ∈ ({ row_process_error_cnt := 2, req_total_count := 2, req_total_time := 0,
                 stats := [] } : ParsingResult).stats,
          s.count = s.request_times.length ∧ s.time_sum = s.request_times.sum) :=
  ⟨rfl,
   claim_c10 [none, none]
     { row_process_error_cnt := 2, req_total_count := 2, req_total_time := 0, stats := [] }
     rfl⟩

/-! ## Claim C6: ranking and truncation of the report -/

/-- The keys of the stats map after one insertion: unchanged when the path
is known, appended (in insertion order) when it is new. -/
theorem insertRow_keys (m : List (String × EndpointStat)) (p : String) (t : ℚ) :
    (insertRow m p t).map Prod.fst =
      if p ∈ m.map Prod.fst then m.map Prod.fst else m.map Prod.fst ++ [p] := by
  induction m with
  | nil => simp [insertRow]
  | cons kv rest ih =>
    obtain ⟨k, s⟩ := kv
    by_cases h : k = p
    · subst h
      simp [insertRow]
    · have hpk : ¬p = k := fun hh => h hh.symm
      simp only [insertRow, if_neg h, List.map_cons, List.mem_cons, hpk, false_or]
      rw [ih]
      by_cases hp : p ∈ rest.map Prod.fst
      · simp [hp]
      · simp [hp]

/-- The loop accumulates exactly the distinct request paths of the
successfully parsed rows as stats-map keys, without duplicates. -/
theorem parseLogFileLoop_keys (rows : List RowResult) :
    ∀ st st1 : ParseState, parseLogFileLoop st rows = .ok st1 →
      (st1.stats_map.map Prod.fst).toFinset =
        (st.stats_map.map Prod.fst).toFinset ∪
          ((successRows rows).map LogRow.request_path).toFinset ∧
      ((st.stats_map.map Prod.fst).Nodup → (st1.stats_map.map Prod.fst).Nodup) := by
  induction rows with
  | nil =>
    intro st st1 h
    simp [parseLogFileLoop] at h
    subst h
    simp [successRows]
  | cons r rest ih =>
    intro st st1 h
    cases r with
    | none =>
      simp only [parseLogFileLoop] at h
      obtain ⟨ih1, ih2⟩ := ih _ st1 h
      refine ⟨?_, fun hnd => ih2 hnd⟩
      rw [ih1]
      simp [successRows]
    | some row =>
      cases hrt : row.request_time with
      | none => simp [parseLogFileLoop, hrt] at h
      | some t =>
        simp only [parseLogFileLoop, hrt] at h
        obtain ⟨ih1, ih2⟩ := ih _ st1 h
        have hkeys := insertRow_keys st.stats_map row.request_path t
        have hpaths : ((successRows (some row :: rest)).map LogRow.request_path).toFinset =
            insert row.request_path ((successRows rest).map LogRow.request_path).toFinset := by
          simp [successRows]
        constructor
        · rw [ih1, hpaths]
          by_cases hp : row.request_path ∈ st.stats_map.map Prod.fst
          · rw [show ({ st with
                req_total_count := st.req_total_count + 1
                req_total_time := st.req_total_time + t
                stats_map := insertRow st.stats_map row.request_path t } :
                  ParseState).stats_map = insertRow st.stats_map row.request_path t from rfl,
              hkeys, if_pos hp]
            rw [Finset.union_comm _ (insert _ _), Finset.insert_union,
              Finset.insert_eq_self.mpr
                (Finset.mem_union_right _ (List.mem_toFinset.mpr hp)),
              Finset.union_comm]
          · rw [show ({ st with
                req_total_count := st.req_total_count + 1
                req_total_time := st.req_total_time + t
                stats_map := insertRow st.stats_map row.request_path t } :
                  ParseState).stats_map = insertRow st.stats_map row.request_path t from rfl,
              hkeys, if_neg hp]
            rw [List.toFinset_append]
            simp [Finset.union_assoc, Finset.insert_eq]
        · intro hnd
          apply ih2
          rw [show ({ st with
              req_total_count := st.req_total_count + 1
              req_total_time := st.req_total_time + t
              stats_map := insertRow st.stats_map row.request_path t } :
                ParseState).stats_map = insertRow st.stats_map row.request_path t from rfl,
            hkeys]
          by_cases hp : row.request_path ∈ st.stats_map.map Prod.fst
          · rw [if_pos hp]; exact hnd
          · rw [if_neg hp]
            simp [List.nodup_append, hnd, hp]

/-- C6: for every successful aggregation and report build, the report rows
are exactly the stats list — which is sorted descending by time_max —
truncated to the report size, and their number is the minimum of the report
size and the number of distinct endpoints of the row sequence. -/
theorem claim_c6 (rows : List RowResult) (report_size : ℕ) (threshold : ℤ)
    (res : ParsingResult) (out : List ReportRow)
    (hp : parseLogFile rows = .ok res)
    (hr : prepareReportData res report_size threshold = .ok out) :
    out = (res.stats.take report_size).map (mkReportRow res) ∧
    out.length = min report_size (distinctPathCount rows) ∧
    List.Sorted statGe res.stats := by
  have hout : out = (res.stats.take report_size).map (mkReportRow res) := by
    rw [prepareReportData] at hr
    by_cases hb : thresholdBreached res threshold
    · rw [if_pos hb] at hr
      exact absurd hr (by simp)
    · rw [if_neg hb] at hr
      exact (Except.ok.inj hr).symm
  unfold parseLogFile at hp
  cases hl : parseLogFileLoop {} rows with
  | error e => rw [hl] at hp; exact absurd hp (by simp [Except.map])
  | ok st =>
    rw [hl] at hp
    simp only [Except.map] at hp
    injection hp with hp
    obtain ⟨hkf, hknd⟩ := parseLogFileLoop_keys rows {} st hl
    have hkf2 : (st.stats_map.map Prod.fst).toFinset =
        ((successRows rows).map LogRow.request_path).toFinset := by
      rw [hkf]; simp
    have hnd : (st.stats_map.map Prod.fst).Nodup := hknd (by simp)
    have hlen : res.stats.length = distinctPathCount rows := by
      have hplen : res.stats.length = st.stats_map.length := by
        rw [← hp]
        show (if st.stats_map.isEmpty then ([] : List EndpointStat)
          else sortStats (st.stats_map.map Prod.snd)).length = _
        rw [(stats_if_perm st.stats_map).length_eq, List.length_map]
      rw [hplen, distinctPathCount, ← hkf2, List.toFinset_card_of_nodup hnd,
        List.length_map]
    refine ⟨hout, ?_, ?_⟩
    · rw [hout, List.length_map, List.length_take, hlen]
    · rw [← hp]
      show List.Sorted statGe (if st.stats_map.isEmpty then ([] : List EndpointStat)
        else sortStats (st.stats_map.map Prod.snd))
      by_cases he : st.stats_map.isEmpty
      · rw [if_pos he]; exact List.sorted_nil
      · rw [if_neg he]
        exact List.sorted_insertionSort statGe _

/-- Witness for C6: three grammar-failing rows, report size 2. -/
theorem claim_c6_witness :
    (parseLogFile ([none, none, none] : List RowResult) =
        .ok { row_process_error_cnt := 3, req_total_count := 3, req_total_time := 0,
              stats := [] } ∧
      prepareReportData
          { row_process_error_cnt := 3, req_total_count := 3, req_total_time := 0,
            stats := [] } 2 (-1) = .ok []) ∧
    (([] : List ReportRow) =
        (({ row_process_error_cnt := 3, req_total_count := 3, req_total_time := 0,
            stats := [] } : ParsingResult).stats.take 2).map
          (mkReportRow { row_process_error_cnt := 3, req_total_count := 3,
                         req_total_time := 0, stats := [] }) ∧
      ([] : List ReportRow).length = min 2 (distinctPathCount [none, none, none]) ∧
      List.Sorted statGe ({ row_process_error_cnt := 3, req_total_count := 3,
                            req_total_time := 0, stats := [] } : ParsingResult).stats) :=
  ⟨⟨rfl, by rfl⟩,
   claim_c6 [none, none, none] 2 (-1)
     { row_process_error_cnt := 3, req_total_count := 3, req_total_time := 0, stats := [] }
     [] rfl (by rfl)⟩

/-! ## Claim C4: selector determinism -/

/-- The code-point lexicographic order is transitive. -/
theorem lexLt_trans : ∀ {a b c : List Char},
    lexLt a b = true → lexLt b c = true → lexLt a c = true := by
  intro a
  induction a with
  | nil =>
    intro b c hab hbc
    cases b with
    | nil => simp [lexLt] at hab
    | cons y ys =>
      cases c with
      | nil => simp [lexLt] at hbc
      | cons z zs => simp [lexLt]
  | cons x xs ih =>
    intro b c hab hbc
    cases b with
    | nil => simp [lexLt] at hab
    | cons y ys =>
      cases c with
      | nil => simp [lexLt] at hbc
      | cons z zs =>
        simp only [lexLt] at hab hbc ⊢
        by_cases hxy : x < y
        · by_cases hyz : y < z
          · rw [if_pos (lt_trans hxy hyz)]
          · rw [if_neg hyz] at hbc
            by_cases hzy : z < y
            · rw [if_pos hzy] at hbc
              exact absurd hbc (by simp)
            · have hyz2 : y = z := le_antisymm (not_lt.mp hzy) (not_lt.mp hyz)
              subst hyz2
              rw [if_pos hxy]
        · rw [if_neg hxy] at hab
          by_cases hyx : y < x
          · rw [if_pos hyx] at hab
            exact absurd hab (by simp)
          · rw [if_neg hyx] at hab
            have hxy2 : x = y := le_antisymm (not_lt.mp hyx) (not_lt.mp hxy)
            subst hxy2
            by_cases hxz : x < z
            · rw [if_pos hxz]
            · rw [if_neg hxz] at hbc ⊢
              by_cases hzx : z < x
              · rw [if_pos hzx] at hbc
                exact absurd hbc (by simp)
              · rw [if_neg hzx] at hbc ⊢
                exact ih hab hbc

/-- Two character lists that are each not below the other are equal. -/
theorem lexLt_eq_of_not : ∀ {a b : List Char},
    lexLt a b = false → lexLt b a = false → a = b := by
  intro a
  induction a with
  | nil =>
    intro b hab _
    cases b with
    | nil => rfl
    | cons y ys => simp [lexLt] at hab
  | cons x xs ih =>
    intro b hab hba
    cases b with
    | nil => simp [lexLt] at hba
    | cons y ys =>
      simp only [lexLt] at hab hba
      by_cases hxy : x < y
      · rw [if_pos hxy] at hab
        exact absurd hab (by simp)
      · by_cases hyx : y < x
        · rw [if_pos hyx] at hba
          exact absurd hba (by simp)
        · have hx : x = y := le_antisymm (not_lt.mp hyx) (not_lt.mp hxy)
          subst hx
          rw [if_neg hxy, if_neg hxy] at hab
          rw [if_neg hyx, if_neg hyx] at hba
          rw [ih hab hba]

/-- Strings with the same character data are the same string. -/
theorem string_data_eq {a b : String} (h : a.data = b.data) : a = b := by
  cases a
  cases b
  exact congrArg String.mk (by simpa using h)

/-- Once the accumulator holds a candidate, the selection fold keeps
holding one. -/
theorem selStep_some (p : String → Bool) (a f : String) :
    selStep p (some a) f = some f ∨ selStep p (some a) f = some a := by
  unfold selStep
  by_cases hpf : p f
  · rw [if_pos hpf]
    dsimp only
    by_cases hlt : lexLt a.data f.data
    · rw [if_pos hlt]
      exact Or.inl rfl
    · rw [if_neg hlt]
      exact Or.inr rfl
  · rw [if_neg hpf]
    exact Or.inr rfl

/-- The selection fold starting from a candidate always returns one. -/
theorem selFold_preserves_some (p : String → Bool) :
    ∀ (files : List String) (a : String),
      ∃ m, files.foldl (selStep p) (some a) = some m := by
  intro files
  induction files with
  | nil => intro a; exact ⟨a, rfl⟩
  | cons f rest ih =>
    intro a
    simp only [List.foldl_cons]
    rcases selStep_some p a f with h | h <;> rw [h]
    · exact ih f
    · exact ih a

/-- When at least one filename matches, selection returns a candidate. -/
theorem findLatestName_isSome (p : String → Bool) :
    ∀ files : List String, (∃ f ∈ files, p f = true) →
      ∃ m, findLatestName files p = some m := by
  intro files
  induction files with
  | nil =>
    intro hex
    obtain ⟨f, hf, _⟩ := hex
    simp at hf
  | cons f rest ih =>
    intro hex
    unfold findLatestName
    simp only [List.foldl_cons]
    by_cases hpf : p f
    · have h0 : selStep p none f = some f := by
        simp [selStep, hpf]
      rw [h0]
      exact selFold_preserves_some p rest f
    · have h0 : selStep p none f = none := by
        simp [selStep, hpf]
      rw [h0]
      apply ih
      obtain ⟨g, hg, hpg⟩ := hex
      rcases List.mem_cons.mp hg with rfl | htail
      · exact absurd hpg (by simp [hpf])
      · exact ⟨g, htail, hpg⟩

/-- Characterization of the selection fold: it returns either its initial
accumulator or a matching file, the result is maximal among all matching
files, and it never goes below the initial accumulator. -/
theorem selFold_max (p : String → Bool) :
    ∀ (files : List String) (acc : Option String) (m : String),
      files.foldl (selStep p) acc = some m →
      (acc = some m ∨ (m ∈ files ∧ p m = true)) ∧
      (∀ f ∈ files, p f = true → f = m ∨ lexLt f.data m.data = true) ∧
      (∀ a, acc = some a → a = m ∨ lexLt a.data m.data = true) := by
  intro files
  induction files with
  | nil =>
    intro acc m h
    simp only [List.foldl_nil] at h
    refine ⟨Or.inl h, ?_, ?_⟩
    · intro f hf
      simp at hf
    · intro a ha
      rw [h] at ha
      exact Or.inl (Option.some.inj ha).symm
  | cons f rest ih =>
    intro acc m h
    simp only [List.foldl_cons] at h
    obtain ⟨h1, h2, h3⟩ := ih (selStep p acc f) m h
    refine ⟨?_, ?_, ?_⟩
    · rcases h1 with hstep | ⟨hm, hpm⟩
      · unfold selStep at hstep
        by_cases hpf : p f
        · rw [if_pos hpf] at hstep
          cases acc with
          | none =>
            dsimp only at hstep
            cases Option.some.inj hstep
            exact Or.inr ⟨List.mem_cons_self f rest, hpf⟩
          | some g =>
            dsimp only at hstep
            by_cases hlt : lexLt g.data f.data
            · rw [if_pos hlt] at hstep
              cases Option.some.inj hstep
              exact Or.inr ⟨List.mem_cons_self f rest, hpf⟩
            · rw [if_neg hlt] at hstep
              exact Or.inl hstep
        · rw [if_neg hpf] at hstep
          exact Or.inl hstep
      · exact Or.inr ⟨List.mem_cons_of_mem f hm, hpm⟩
    · intro g hg hpg
      rcases List.mem_cons.mp hg with rfl | htail
      · unfold selStep at h3
        rw [if_pos hpg] at h3
        cases acc with
        | none =>
          dsimp only at h3
          exact h3 g rfl
        | some a =>
          dsimp only at h3
          by_cases hlt : lexLt a.data g.data
          · rw [if_pos hlt] at h3
            exact h3 g rfl
          · rw [if_neg hlt] at h3
            by_cases hga : lexLt g.data a.data
            · rcases h3 a rfl with rfl | hlt2
              · exact Or.inr hga
              · exact Or.inr (lexLt_trans hga hlt2)
            · have hga2 : lexLt g.data a.data = false := by simpa using hga
              have hlt2 : lexLt a.data g.data = false := by simpa using hlt
              have hgae : g = a := string_data_eq (lexLt_eq_of_not hga2 hlt2)
              rcases h3 a rfl with rfl | hltm
              · exact Or.inl hgae
              · rw [hgae]
                exact Or.inr hltm
      · exact h2 g htail hpg
    · intro a ha
      subst ha
      unfold selStep at h3
      by_cases hpf : p f
      · rw [if_pos hpf] at h3
        dsimp only at h3
        by_cases hlt : lexLt a.data f.data
        · rw [if_pos hlt] at h3
          rcases h3 f rfl with rfl | hlt2
          · exact Or.inr hlt
          · exact Or.inr (lexLt_trans hlt hlt2)
        · rw [if_neg hlt] at h3
          exact h3 a rfl
      · rw [if_neg hpf] at h3
        exact h3 a rfl

/-- C4: whenever at least one filename matches the name pattern, the
selector keeps the lexicographically greatest matching filename (by raw
code-point comparison) and — provided its date token parses — returns the
descriptor with that filename, the parsed `YYYYMMDD` date taken from
`split(".")[1][4:]`, and the compression flag set iff the last dot-part is
`gz`. -/
theorem claim_c4 (log_location : String) (files : List String) (p : String → Bool)
    (hashOf : String → String) (hex : ∃ f ∈ files, p f = true) :
    ∃ m, findLatestName files p = some m ∧ m ∈ files ∧ p m = true ∧
      (∀ f ∈ files, p f = true → f = m ∨ lexLt f.data m.data = true) ∧
      ∀ d, parseDateYYYYMMDD (dateToken m) = some d →
        getLatestLogInfo log_location true files p hashOf =
          .ok (some { filename := m, full_path := log_location ++ "/" ++ m,
                      hash := hashOf m, log_date := d,
                      is_gzipped := (splitOnChar '.' m.data).getLastD [] == ['g', 'z'] }) := by
  obtain ⟨m, hm⟩ := findLatestName_isSome p files hex
  obtain ⟨h1, h2, _⟩ := selFold_max p files none m hm
  have hmem : m ∈ files ∧ p m = true := by
    rcases h1 with h | h
    · exact absurd h (by simp)
    · exact h
  refine ⟨m, hm, hmem.1, hmem.2, h2, ?_⟩
  intro d hd
  unfold getLatestLogInfo
  rw [if_neg (by simp)]
  rw [hm]
  dsimp only
  cases hp1 : (splitOnChar '.' m.data)[1]? with
  | none =>
    exfalso
    have hdt : dateToken m = [] := by
      unfold dateToken
      rw [List.getD_eq_getElem?_getD, hp1]
      rfl
    rw [hdt] at hd
    exact Option.noConfusion hd
  | some part1 =>
    have hdt : dateToken m = part1.drop 4 := by
      unfold dateToken
      rw [List.getD_eq_getElem?_getD, hp1]
      rfl
    rw [hdt] at hd
    dsimp only
    rw [hd]

/-- The directory listing of the spec's selector-determinism test. -/
def c4Files : List String := ["x.log-20240104", "x.log-20240904.gz", "x.log-20240804"]

/-- A concrete model of the compiled pattern `x.log*`, true on every
filename of the listing (as `re.match` is on these names). -/
def c4Pat : String → Bool := fun s => hasPrefixChars "x.log".data s.data

/-- Witness for C4: on the spec's listing the selector picks
`x.log-20240904.gz`, dated 2024-09-04, compressed. -/
theorem claim_c4_witness :
    (∃ f ∈ c4Files, c4Pat f = true) ∧
    (∃ m, findLatestName c4Files c4Pat = some m ∧ m ∈ c4Files ∧ c4Pat m = true ∧
      (∀ f ∈ c4Files, c4Pat f = true → f = m ∨ lexLt f.data m.data = true) ∧
      ∀ d, parseDateYYYYMMDD (dateToken m) = some d →
        getLatestLogInfo "test_path" true c4Files c4Pat (fun _ => "d41d8cd9") =
          .ok (some { filename := m, full_path := "test_path" ++ "/" ++ m,
                      hash := "d41d8cd9", log_date := d,
                      is_gzipped := (splitOnChar '.' m.data).getLastD [] == ['g', 'z'] })) ∧
    getLatestLogInfo "test_path" true c4Files c4Pat (fun _ => "d41d8cd9") =
      .ok (some { filename := "x.log-20240904.gz",
                  full_path := "test_path/x.log-20240904.gz",
                  hash := "d41d8cd9", log_date := ⟨2024, 9, 4⟩, is_gzipped := true }) :=
  ⟨by decide,
   claim_c4 "test_path" c4Files c4Pat (fun _ => "d41d8cd9") (by decide),
   by decide⟩

end HW01
